import Mathlib

/-!
Verification of the OpenVAF frontend core against its specification.

This file shallowly embeds the parts of the code base that the verified
properties speak about:

* the constant folder of `frontend/src/analysis/constant_fold/mod.rs`
  (the `ConstantFold` visitor in its mutating form, i.e. the entry points
  `Mir::constant_fold_real_expr` / `Mir::constant_fold_int_expr`),
* the demanded-derivatives pass of `frontend/src/derivatives/demanded.rs`,
* the Jacobian assembly of `crates/sim_back/src/matrix.rs`.

Modelling conventions:

* Rust `i64` arithmetic is modelled on unbounded `Int`.  No verified claim
  exercises two's-complement wrap-around; operations that panic in Rust
  (`/` and `%` by zero, out-of-range shifts) are modelled explicitly as a
  `panic` outcome.
* Rust `f64` values are modelled as rationals `ℚ`.  Every concrete real
  value appearing in a theorem below is a small dyadic rational on which
  IEEE-754 double arithmetic is exact, so `ℚ` arithmetic agrees with the
  host arithmetic there.  The host `powf` function has no rational
  counterpart; the fold is therefore parameterised over it (`pw`), and no
  theorem ever evaluates it.
* The `Linter::dispatch_late` global dispatcher is modelled by threading
  the list of emitted `ConstantOverflow` lint spans through the fold.
* The MIR expression arenas and the `walk_real_expression` /
  `walk_integer_expression` dispatchers live in modules that are not part
  of the sources; following the specification (sections 3.3 and 4.3) they
  are modelled as expression trees and a structural dispatch-by-variant.
  In-place `overwrite_*_expr` rewrites become the rewritten tree returned
  by the fold; an overwrite replaces a node's contents but keeps its span.
  Only the expression variants exercised by the verified claims are
  modelled (string expressions, noise, built-in calls, casts and
  port/net predicates are omitted; the fold returns `None` on most of
  them without interacting with the claims below).
-/

namespace ConstFold

/-- Source spans, opaque to the fold except as lint payloads. -/
abbrev Span := Nat

abbrev VariableId := Nat
abbrev ParameterId := Nat
abbrev BranchId := Nat

/-- Binary operators of the real-sorted MIR expressions. -/
inductive RealBinaryOperator where
  | Sum | Diff | Mul | Quotient | Pow | Mod
deriving DecidableEq

/-- Binary operators of the integer-sorted MIR expressions. -/
inductive IntegerBinaryOperator where
  | Sum | Diff | Mul | Quotient | Pow | Mod
  | ShiftLeft | ShiftRight | Xor | NXor | And | Or
  | LogicAnd | LogicOr
deriving DecidableEq

/-- Comparison operators (shared shape between the real and integer
comparison folds). -/
inductive ComparisonOperator where
  | LessThan | LessEqual | GreaterThan | GreaterEqual | Equal | NotEqual
deriving DecidableEq

/-- Unary operators, from `crate::ast::UnaryOperator`. -/
inductive UnaryOperator where
  | BitNegate | LogicNegate | ArithmeticNegate | ExplicitPositive
deriving DecidableEq

mutual
/-- Real-sorted MIR expressions (spec section 3.3); each node carries its
span, mirroring the `Node<RealExpression>` arena entries. -/
inductive RealExpression where
  | literal (sp : Span) (val : ℚ)
  | binaryOperator (sp : Span) (lhs : RealExpression) (op : RealBinaryOperator)
      (rhs : RealExpression)
  | negate (sp : Span) (arg : RealExpression)
  | condition (sp : Span) (cond : IntegerExpression)
      (trueExpr falseExpr : RealExpression)
  | variableReference (sp : Span) (var : VariableId)
  | parameterReference (sp : Span) (param : ParameterId)
  | branchAccess (sp : Span) (branch : BranchId)
deriving DecidableEq

/-- Integer-sorted MIR expressions (spec section 3.3). -/
inductive IntegerExpression where
  | literal (sp : Span) (val : Int)
  | binaryOperator (sp : Span) (lhs : IntegerExpression)
      (op : IntegerBinaryOperator) (rhs : IntegerExpression)
  | unaryOperator (sp : Span) (op : UnaryOperator) (arg : IntegerExpression)
  | condition (sp : Span) (cond trueExpr falseExpr : IntegerExpression)
  | variableReference (sp : Span) (var : VariableId)
  | parameterReference (sp : Span) (param : ParameterId)
  | realComparison (sp : Span) (lhs : RealExpression) (op : ComparisonOperator)
      (rhs : RealExpression)
  | integerComparison (sp : Span) (lhs : IntegerExpression)
      (op : ComparisonOperator) (rhs : IntegerExpression)
deriving DecidableEq
end

/-- Span of a real expression node. -/
def RealExpression.span : RealExpression → Span
  | .literal sp _ => sp
  | .binaryOperator sp _ _ _ => sp
  | .negate sp _ => sp
  | .condition sp _ _ _ => sp
  | .variableReference sp _ => sp
  | .parameterReference sp _ => sp
  | .branchAccess sp _ => sp

/-- Span of an integer expression node. -/
def IntegerExpression.span : IntegerExpression → Span
  | .literal sp _ => sp
  | .binaryOperator sp _ _ _ => sp
  | .unaryOperator sp _ _ => sp
  | .condition sp _ _ _ => sp
  | .variableReference sp _ => sp
  | .parameterReference sp _ => sp
  | .realComparison sp _ _ _ => sp
  | .integerComparison sp _ _ _ => sp

/-- Overwriting a real arena slot with another expression's contents keeps
the slot's span (`overwrite_real_expr` stores only the `contents`). -/
def RealExpression.withSpan : RealExpression → Span → RealExpression
  | .literal _ v, sp => .literal sp v
  | .binaryOperator _ l op r, sp => .binaryOperator sp l op r
  | .negate _ a, sp => .negate sp a
  | .condition _ c t f, sp => .condition sp c t f
  | .variableReference _ v, sp => .variableReference sp v
  | .parameterReference _ p, sp => .parameterReference sp p
  | .branchAccess _ b, sp => .branchAccess sp b

/-- Overwriting an integer arena slot with another expression's contents
keeps the slot's span. -/
def IntegerExpression.withSpan : IntegerExpression → Span → IntegerExpression
  | .literal _ v, sp => .literal sp v
  | .binaryOperator _ l op r, sp => .binaryOperator sp l op r
  | .unaryOperator _ op a, sp => .unaryOperator sp op a
  | .condition _ c t f, sp => .condition sp c t f
  | .variableReference _ v, sp => .variableReference sp v
  | .parameterReference _ p, sp => .parameterReference sp p
  | .realComparison _ l op r, sp => .realComparison sp l op r
  | .integerComparison _ l op r, sp => .integerComparison sp l op r

/-- The `ConstResolver` trait (spec section 6.3), restricted to the real
and integer sorts used here: each method answers `none` for "unknown at
fold time". -/
structure ConstResolver where
  realVariableValue : VariableId → Option ℚ
  realParameterValue : ParameterId → Option ℚ
  intVariableValue : VariableId → Option Int
  intParameterValue : ParameterId → Option Int

/-- Modelled from the spec: the `NoConstResolution` implementation of the
resolver trait (its module is not among the sources) answers `none` for
every query. -/
def NoConstResolution : ConstResolver :=
  ⟨fun _ => none, fun _ => none, fun _ => none, fun _ => none⟩

/-- Which operand a partial simplification resolves the whole expression
to (`ArgSide` in the source). -/
inductive ArgSide where
  | Rhs | Lhs
deriving DecidableEq

/-- Outcome of folding one expression: either a Rust panic (carrying the
lints dispatched before the panic) or a value (`none` = not fully
foldable), the possibly rewritten expression, and the dispatched lint
spans in order. -/
inductive FoldRes (V : Type) (E : Type) where
  | panic (lints : List Span)
  | ok (val : Option V) (expr : E) (lints : List Span)
deriving DecidableEq

/-- Generic `ConstantFold::fold_pow`, parameterised over the host power
operation like the Rust generic over the `Pow` trait.  The second
component reports the `resolve_to` call, if any. -/
def foldPow {B E : Type} [Zero B] [One B] [Zero E] [One E]
    [DecidableEq B] [DecidableEq E] (pw : B → E → B) :
    Option B → Option E → Option B × Option ArgSide
  | a1, some e =>
    if e = 0 then (some 0, none)
    else
      match a1 with
      | none => if e = 1 then (none, some .Lhs) else (none, none)
      | some b =>
        if b = 0 then (some 0, none)
        else if b = 1 then (some 1, none)
        else (some (pw b e), none)
  | some b, none =>
    if b = 0 then (some 0, none)
    else if b = 1 then (some 1, none)
    else (none, none)
  | none, none => (none, none)

/-- Generic `ConstantFold::fold_mul`. -/
def foldMul {V : Type} [Zero V] [One V] [Mul V] [DecidableEq V] :
    Option V → Option V → Option V × Option ArgSide
  | none, some a =>
    if a = 0 then (some 0, none)
    else if a = 1 then (none, some .Lhs)
    else (none, none)
  | some a, none =>
    if a = 0 then (some 0, none)
    else if a = 1 then (none, some .Rhs)
    else (none, none)
  | some a, some b => (some (a * b), none)
  | none, none => (none, none)

/-- Generic `ConstantFold::fold_div`, parameterised over the host division
(which returns `none` where the Rust `/` panics, i.e. integer division by
zero).  The outer `none` of the result is that panic. -/
def foldDiv {V : Type} [Zero V] [One V] [DecidableEq V]
    (dv : V → V → Option V) :
    Option V → Option V → Option (Option V × Option ArgSide)
  | some lhs, none =>
    if lhs = 0 then some (some 0, none) else some (none, none)
  | none, some rhs =>
    if rhs = 1 then some (none, some .Lhs) else some (none, none)
  | some a, some b => (dv a b).map fun v => (some v, none)
  | none, none => some (none, none)

/-- Generic `ConstantFold::fold_plus`. -/
def foldPlus {V : Type} [Zero V] [Add V] [DecidableEq V] :
    Option V → Option V → Option V × Option ArgSide
  | none, some a => if a = 0 then (none, some .Lhs) else (none, none)
  | some a, none => if a = 0 then (none, some .Rhs) else (none, none)
  | some a, some b => (some (a + b), none)
  | none, none => (none, none)

/-- Generic `ConstantFold::fold_minus`. -/
def foldMinus {V : Type} [Zero V] [Sub V] [DecidableEq V] :
    Option V → Option V → Option V × Option ArgSide
  | none, some a => if a = 0 then (none, some .Lhs) else (none, none)
  | some a, some b => (some (a - b), none)
  | _, _ => (none, none)

/-- Rust `i64` division: truncated, panics (`none`) on a zero divisor. -/
def i64Div (a b : Int) : Option Int :=
  if b = 0 then none else some (Int.tdiv a b)

/-- Rust `i64` remainder: truncated, panics (`none`) on a zero divisor. -/
def i64Rem (a b : Int) : Option Int :=
  if b = 0 then none else some (Int.tmod a b)

/-- Rust `!` on `i64`: bitwise complement. -/
def i64Not (a : Int) : Int := -(a + 1)

/-- Rust `i64` left shift; panics (`none`) outside `0..64` as under the
debug overflow checks. -/
def i64Shl (a b : Int) : Option Int :=
  if 0 ≤ b ∧ b < 64 then some (a * 2 ^ b.toNat) else none

/-- Rust `i64` arithmetic right shift; panics (`none`) outside `0..64`. -/
def i64Shr (a b : Int) : Option Int :=
  if 0 ≤ b ∧ b < 64 then some (Int.fdiv a (2 ^ b.toNat)) else none

/-- Rust `i64::pow` with a `u32` exponent, on unbounded integers. -/
def i64PowU32 (b : Int) (e : Nat) : Int := b ^ e

/-- Division of Rust `f64` values on the rational model (total; the IEEE
infinity/NaN regime is not exercised by any claim). -/
def realDiv (a b : ℚ) : Option ℚ := some (a / b)

/-- Truncation toward zero, used by the `f64` remainder model. -/
def ratTrunc (q : ℚ) : Int := if 0 ≤ q then ⌊q⌋ else ⌈q⌉

/-- Rust `f64` `%` (truncated remainder) on the rational model. -/
def realMod (a b : ℚ) : ℚ := a - b * (ratTrunc (a / b) : ℚ)

/-- The constant `U32_MAX_I64` from the source. -/
def U32_MAX_I64 : Int := 4294967295

/-- The constant `U32_OVERFLOW_START` from the source. -/
def U32_OVERFLOW_START : Int := U32_MAX_I64 + 1

/-- The constant `i64::MAX`. -/
def I64_MAX : Int := 9223372036854775807

/-- Modelled from the spec: the default-margin approximate equality of the
external `float_cmp` crate ("ULPs / tiny relative epsilon"), used by the
real `!=` fold.  The model keeps the absolute-epsilon disjunct
(`F64Margin::default()` has `epsilon = f64::EPSILON = 2 ^ (-52)`); the
ULPs disjunct only widens the relation further away from `1`, and every
theorem below uses the relation only at points decided by the epsilon
disjunct. -/
def approxEq (a b : ℚ) : Bool := |a - b| ≤ 1 / 2 ^ 52

/-- Modelled from the spec: `approx_ne` is the negation of `approx_eq`. -/
def approxNe (a b : ℚ) : Bool := !approxEq a b

end ConstFold

namespace ConstFold

/-- Wrapper behaviour of `fold_integer_expr`: a successful fold overwrites
the folded node with a literal of the result (keeping the node's span). -/
def intLiteralize (sp : Span) : FoldRes Int IntegerExpression →
    FoldRes Int IntegerExpression
  | .ok (some v) _ l => .ok (some v) (.literal sp v) l
  | res => res

/-- Effect of `int_resolve_to` on an integer binary node: without a
`resolve_to` call the node keeps its (child-rewritten) operands; resolving
to a side overwrites the node with that operand's contents. -/
def applySideInt (sp : Span) (op : IntegerBinaryOperator)
    (lhs rhs : IntegerExpression) : Option ArgSide → IntegerExpression
  | none => .binaryOperator sp lhs op rhs
  | some .Lhs => lhs.withSpan sp
  | some .Rhs => rhs.withSpan sp

/-- Effect of `real_resolve_to` on a real binary node. -/
def applySideReal (sp : Span) (op : RealBinaryOperator)
    (lhs rhs : RealExpression) : Option ArgSide → RealExpression
  | none => .binaryOperator sp lhs op rhs
  | some .Lhs => lhs.withSpan sp
  | some .Rhs => rhs.withSpan sp

/-- Sequencing of two eagerly folded operands (`let lhs = fold(..); let
rhs = fold(..)`): a panic in the left fold aborts before the right runs;
lints accumulate left to right. -/
def withBoth {V E : Type} (lres rres : FoldRes V E)
    (k : Option V → E → Option V → E → List Span → FoldRes V E) :
    FoldRes V E :=
  match lres with
  | .panic l => .panic l
  | .ok lv le ll =>
    match rres with
    | .panic l => .panic (ll ++ l)
    | .ok rv re lr => k lv le rv re (ll ++ lr)

/-- Sequencing of two operands folded with the `?` early return: when the
left operand is not fully foldable the right operand is never folded (so
its slot keeps the original contents and contributes no lints). -/
def withStrict {V E R RE : Type} (mk : E → E → RE) (rhsOrig : E)
    (lres rres : FoldRes V E) (toNone : RE → List Span → FoldRes R RE)
    (k : V → E → V → E → List Span → FoldRes R RE) : FoldRes R RE :=
  match lres with
  | .panic l => .panic l
  | .ok none le ll => toNone (mk le rhsOrig) ll
  | .ok (some a) le ll =>
    match rres with
    | .panic l => .panic (ll ++ l)
    | .ok none re lr => toNone (mk le re) (ll ++ lr)
    | .ok (some b) re lr => k a le b re (ll ++ lr)

/-- Is the optional value a known nonzero constant. -/
def someNonzero : Option Int → Bool
  | some x => x != 0
  | none => false

/-- The `IntegerBinaryOperatorFold` implementation of the constant folder,
acting on the already folded operand results.  `rhsOrig` is the right
operand before folding, used by the operators that short-circuit via `?`
before folding it. -/
def intBinOp (sp : Span) (op : IntegerBinaryOperator)
    (rhsOrig : IntegerExpression)
    (lres rres : FoldRes Int IntegerExpression) :
    FoldRes Int IntegerExpression :=
  let node := fun (l r : IntegerExpression) =>
    IntegerExpression.binaryOperator sp l op r
  let okNone := fun (e : IntegerExpression) (l : List Span) =>
    (FoldRes.ok none e l : FoldRes Int IntegerExpression)
  match op with
  | .Sum => withBoth lres rres fun lv le rv re lints =>
      let res := foldPlus lv rv
      .ok res.1 (applySideInt sp .Sum le re res.2) lints
  | .Diff => withBoth lres rres fun lv le rv re lints =>
      let res := foldMinus lv rv
      .ok res.1 (applySideInt sp .Diff le re res.2) lints
  | .Mul => withBoth lres rres fun lv le rv re lints =>
      let res := foldMul lv rv
      .ok res.1 (applySideInt sp .Mul le re res.2) lints
  | .Quotient => withBoth lres rres fun lv le rv re lints =>
      let lints := lints ++ (if rv = some 0 then [sp] else [])
      match foldDiv i64Div lv rv with
      | none => .panic lints
      | some res => .ok res.1 (applySideInt sp .Quotient le re res.2) lints
  | .Pow => withBoth lres rres fun lv le rv re lints =>
      match rv with
      | some k =>
        if k ≤ -1 then .ok (some 0) (node le re) lints
        else if k ≤ U32_MAX_I64 then
          let res := foldPow i64PowU32 lv (some k.toNat)
          .ok res.1 (applySideInt sp .Pow le re res.2) lints
        else
          let res := foldPow i64PowU32 lv (none : Option Nat)
          .ok res.1 (applySideInt sp .Pow le re res.2) (lints ++ [sp])
      | none =>
          let res := foldPow i64PowU32 lv (none : Option Nat)
          .ok res.1 (applySideInt sp .Pow le re res.2) lints
  | .Mod => withStrict node rhsOrig lres rres okNone fun a le b re lints =>
      match i64Rem a b with
      | none => .panic lints
      | some v => .ok (some v) (node le re) lints
  | .ShiftLeft => withStrict node rhsOrig lres rres okNone fun a le b re lints =>
      match i64Shl a b with
      | none => .panic lints
      | some v => .ok (some v) (node le re) lints
  | .ShiftRight => withStrict node rhsOrig lres rres okNone fun a le b re lints =>
      match i64Shr a b with
      | none => .panic lints
      | some v => .ok (some v) (node le re) lints
  | .Xor => withStrict node rhsOrig lres rres okNone fun a le b re lints =>
      .ok (some (Int.xor a b)) (node le re) lints
  | .NXor => withStrict node rhsOrig lres rres okNone fun a le b re lints =>
      .ok (some (i64Not (Int.xor a b))) (node le re) lints
  | .And => withBoth lres rres fun lv le rv re lints =>
      if lv = some 0 ∨ rv = some 0 then .ok (some 0) (node le re) lints
      else if lv = some I64_MAX ∧ rv = none then
        .ok none (le.withSpan sp) lints
      else if lv = none ∧ rv = some I64_MAX then
        .ok none (re.withSpan sp) lints
      else
        match lv, rv with
        | some a, some b => .ok (some (Int.land a b)) (node le re) lints
        | _, _ => .ok none (node le re) lints
  | .Or => withBoth lres rres fun lv le rv re lints =>
      if lv = some I64_MAX ∨ rv = some I64_MAX then
        .ok (some I64_MAX) (node le re) lints
      else if lv = some 0 ∧ rv = none then
        .ok none (le.withSpan sp) lints
      else if lv = none ∧ rv = some 0 then
        .ok none (re.withSpan sp) lints
      else
        match lv, rv with
        | some a, some b => .ok (some (Int.lor a b)) (node le re) lints
        | _, _ => .ok none (node le re) lints
  | .LogicAnd => withBoth lres rres fun lv le rv re lints =>
      if lv = some 0 ∨ rv = some 0 then .ok (some 0) (node le re) lints
      else
        match lv, rv with
        | some _, none => .ok none (le.withSpan sp) lints
        | none, some _ => .ok none (re.withSpan sp) lints
        | some a, some b =>
          .ok (some (if a ≠ 0 ∧ b ≠ 0 then 1 else 0)) (node le re) lints
        | none, none => .ok none (node le re) lints
  | .LogicOr => withBoth lres rres fun lv le rv re lints =>
      if someNonzero lv || someNonzero rv then .ok (some 1) (node le re) lints
      else
        match lv, rv with
        | some _, none => .ok none (le.withSpan sp) lints
        | none, some _ => .ok none (re.withSpan sp) lints
        | some a, some b =>
          .ok (some (if a ≠ 0 ∨ b ≠ 0 then 1 else 0)) (node le re) lints
        | none, none => .ok none (node le re) lints

/-- The `IntegerComparisonFold` implementation (all operators fold both
operands with `?` and compare exactly). -/
def intCmpOp (sp : Span) (cop : ComparisonOperator)
    (rhsOrig : IntegerExpression)
    (lres rres : FoldRes Int IntegerExpression) :
    FoldRes Int IntegerExpression :=
  withStrict (fun l r => IntegerExpression.integerComparison sp l cop r)
    rhsOrig lres rres (fun e l => .ok none e l) fun a le b re lints =>
    let v : Int :=
      match cop with
      | .LessThan => if a < b then 1 else 0
      | .LessEqual => if a ≤ b then 1 else 0
      | .GreaterThan => if b < a then 1 else 0
      | .GreaterEqual => if b ≤ a then 1 else 0
      | .Equal => if a = b then 1 else 0
      | .NotEqual => if a = b then 0 else 1
    .ok (some v) (.integerComparison sp le cop re) lints

/-- The `RealComparisonFold` implementation: operands are real, the result
is an integer.  `==` compares the two folded doubles exactly; `!=` uses
the approximate `approx_ne` with the default margin. -/
def realCmpOp (sp : Span) (cop : ComparisonOperator) (rhsOrig : RealExpression)
    (lres rres : FoldRes ℚ RealExpression) : FoldRes Int IntegerExpression :=
  withStrict (fun l r => IntegerExpression.realComparison sp l cop r)
    rhsOrig lres rres (fun e l => .ok none e l) fun a le b re lints =>
    let v : Int :=
      match cop with
      | .LessThan => if a < b then 1 else 0
      | .LessEqual => if a ≤ b then 1 else 0
      | .GreaterThan => if b < a then 1 else 0
      | .GreaterEqual => if b ≤ a then 1 else 0
      | .Equal => if a = b then 1 else 0
      | .NotEqual => if approxNe a b then 1 else 0
    .ok (some v) (.realComparison sp le cop re) lints

/-- The `RealBinaryOperatorFold` implementation on folded operand
results. -/
def realBinOp (pw : ℚ → ℚ → ℚ) (sp : Span) (op : RealBinaryOperator)
    (rhsOrig : RealExpression) (lres rres : FoldRes ℚ RealExpression) :
    FoldRes ℚ RealExpression :=
  let node := fun (l r : RealExpression) =>
    RealExpression.binaryOperator sp l op r
  match op with
  | .Sum => withBoth lres rres fun lv le rv re lints =>
      let res := foldPlus lv rv
      .ok res.1 (applySideReal sp .Sum le re res.2) lints
  | .Diff => withBoth lres rres fun lv le rv re lints =>
      let res := foldMinus lv rv
      .ok res.1 (applySideReal sp .Diff le re res.2) lints
  | .Mul => withBoth lres rres fun lv le rv re lints =>
      let res := foldMul lv rv
      .ok res.1 (applySideReal sp .Mul le re res.2) lints
  | .Quotient => withBoth lres rres fun lv le rv re lints =>
      match foldDiv realDiv lv rv with
      | none => .panic lints
      | some res => .ok res.1 (applySideReal sp .Quotient le re res.2) lints
  | .Pow => withBoth lres rres fun lv le rv re lints =>
      let res := foldPow pw lv rv
      .ok res.1 (applySideReal sp .Pow le re res.2) lints
  | .Mod => withStrict node rhsOrig lres rres (fun e l => .ok none e l)
      fun a le b re lints => .ok (some (realMod a b)) (node le re) lints

/-- Negation of a real expression (`fold_negate`). -/
def realNegateStep (sp : Span) (ares : FoldRes ℚ RealExpression) :
    FoldRes ℚ RealExpression :=
  match ares with
  | .panic l => .panic l
  | .ok none ae l => .ok none (.negate sp ae) l
  | .ok (some a) ae l => .ok (some (-a)) (.negate sp ae) l

/-- Unary integer operators: logical negate is folded exactly like bit
negate (bitwise complement). -/
def intUnaryStep (sp : Span) (op : UnaryOperator)
    (ares : FoldRes Int IntegerExpression) : FoldRes Int IntegerExpression :=
  match ares with
  | .panic l => .panic l
  | .ok none ae l => .ok none (.unaryOperator sp op ae) l
  | .ok (some a) ae l =>
    let v :=
      match op with
      | .BitNegate => i64Not a
      | .LogicNegate => i64Not a
      | .ArithmeticNegate => -a
      | .ExplicitPositive => a
    .ok (some v) (.unaryOperator sp op ae) l

/-- Integer `fold_condition`: a known condition selects and folds only the
chosen branch; when that branch is not fully foldable the whole node is
overwritten with the branch's contents. -/
def intCondStep (sp : Span) (tOrig fOrig : IntegerExpression)
    (cres tres fres : FoldRes Int IntegerExpression) :
    FoldRes Int IntegerExpression :=
  match cres with
  | .panic l => .panic l
  | .ok none ce ll => .ok none (.condition sp ce tOrig fOrig) ll
  | .ok (some c) ce ll =>
    match (if c = 0 then fres else tres) with
    | .panic l => .panic (ll ++ l)
    | .ok none be lb => .ok none (be.withSpan sp) (ll ++ lb)
    | .ok (some v) be lb =>
      .ok (some v)
        (.condition sp ce (if c = 0 then tOrig else be)
          (if c = 0 then be else fOrig)) (ll ++ lb)

/-- Real `fold_condition`. -/
def realCondStep (sp : Span) (tOrig fOrig : RealExpression)
    (cres : FoldRes Int IntegerExpression)
    (tres fres : FoldRes ℚ RealExpression) : FoldRes ℚ RealExpression :=
  match cres with
  | .panic l => .panic l
  | .ok none ce ll => .ok none (.condition sp ce tOrig fOrig) ll
  | .ok (some c) ce ll =>
    match (if c = 0 then fres else tres) with
    | .panic l => .panic (ll ++ l)
    | .ok none be lb => .ok none (be.withSpan sp) (ll ++ lb)
    | .ok (some v) be lb =>
      .ok (some v)
        (.condition sp ce (if c = 0 then tOrig else be)
          (if c = 0 then be else fOrig)) (ll ++ lb)

mutual
/-- The mutating `fold_real_expr` of the constant folder
(`Mir::constant_fold_real_expr`): dispatch by variant; unlike the integer
fold there is no overwrite of the node on a successful fold. -/
def foldRealExpr (pw : ℚ → ℚ → ℚ) (r : ConstResolver) :
    RealExpression → FoldRes ℚ RealExpression
  | .literal sp v => .ok (some v) (.literal sp v) []
  | .binaryOperator sp lhs op rhs =>
      realBinOp pw sp op rhs (foldRealExpr pw r lhs) (foldRealExpr pw r rhs)
  | .negate sp arg => realNegateStep sp (foldRealExpr pw r arg)
  | .condition sp c t f =>
      realCondStep sp t f (foldIntegerExpr pw r c)
        (foldRealExpr pw r t) (foldRealExpr pw r f)
  | .variableReference sp v =>
      .ok (r.realVariableValue v) (.variableReference sp v) []
  | .parameterReference sp p =>
      .ok (r.realParameterValue p) (.parameterReference sp p) []
  | .branchAccess sp b => .ok none (.branchAccess sp b) []

/-- The mutating `fold_integer_expr` of the constant folder
(`Mir::constant_fold_int_expr`): dispatch by variant, then overwrite the
node with a literal whenever the fold produced a value. -/
def foldIntegerExpr (pw : ℚ → ℚ → ℚ) (r : ConstResolver)
    (e : IntegerExpression) : FoldRes Int IntegerExpression :=
  intLiteralize e.span
    (match e with
     | .literal sp v => .ok (some v) (.literal sp v) []
     | .binaryOperator sp lhs op rhs =>
         intBinOp sp op rhs (foldIntegerExpr pw r lhs)
           (foldIntegerExpr pw r rhs)
     | .unaryOperator sp op a => intUnaryStep sp op (foldIntegerExpr pw r a)
     | .condition sp c t f =>
         intCondStep sp t f (foldIntegerExpr pw r c)
           (foldIntegerExpr pw r t) (foldIntegerExpr pw r f)
     | .variableReference sp v =>
         .ok (r.intVariableValue v) (.variableReference sp v) []
     | .parameterReference sp p =>
         .ok (r.intParameterValue p) (.parameterReference sp p) []
     | .realComparison sp lhs cop rhs =>
         realCmpOp sp cop rhs (foldRealExpr pw r lhs) (foldRealExpr pw r rhs)
     | .integerComparison sp lhs cop rhs =>
         intCmpOp sp cop rhs (foldIntegerExpr pw r lhs)
           (foldIntegerExpr pw r rhs))
end

end ConstFold

namespace AutoDiff

/-!
Embedding of the demanded-derivatives pass
(`frontend/src/derivatives/demanded.rs`).  Statements live in an
append-only arena (`Mir::statements`, modelled as a list indexed by
position); a basic block is a list of statement ids.  The derivative map
`Mir::derivatives` associates to a variable its registered
`(unknown, derivative variable)` pairs; following the specification its
iteration order is the registration order.  The symbolic
`partial_derivative` routine lives outside the provided sources, so the
pass is parameterised over an arbitrary function `pd` mapping the
differentiated expression id and the unknown to the id of the derivative
expression (its arena side effects are irrelevant to the statement-order
properties proved below).  Rust's unbounded recursion on newly created
statements is modelled with a fuel parameter; every theorem below only
needs the recursion to actually stop (first-order derivative maps), where
any positive fuel computes the same result as the Rust code.
-/

abbrev StatementId := Nat
abbrev VariableId := Nat
abbrev Unknown := Nat
abbrev RealExpressionId := Nat

/-- Statements of the MIR control-flow graph: an assignment (with its
attribute range) or any other statement kind, which the AD pass ignores. -/
inductive Statement where
  | assignment (attr : Nat) (var : VariableId) (expr : RealExpressionId)
  | other
deriving DecidableEq

/-- The parts of the `Mir` the pass touches: the statement arena and the
registered derivative map. -/
structure MirState where
  statements : List Statement
  derivatives : List (VariableId × List (Unknown × VariableId))
deriving DecidableEq

/-- Lookup in the derivative map (`mir.derivatives.get(&var)`). -/
def derivativesOf (m : List (VariableId × List (Unknown × VariableId)))
    (v : VariableId) : Option (List (Unknown × VariableId)) :=
  (m.find? (fun p => p.1 == v)).map (·.2)

/-- Loop of `stmt_derivatives` over the registered pairs, in registration
order; `recur` is the recursive higher-order-derivative call on each newly
created statement.  A new statement id is the arena length at push time. -/
def derivPairsAux
    (recur : MirState → List StatementId → StatementId →
      MirState × List StatementId)
    (pd : RealExpressionId → Unknown → RealExpressionId)
    (pred : VariableId → StatementId → Unknown → Bool)
    (attr : Nat) (var : VariableId) (expr : RealExpressionId)
    (stmt : StatementId) :
    MirState → List StatementId → List (Unknown × VariableId) →
    MirState × List StatementId
  | mir, dst, [] => (mir, dst)
  | mir, dst, (deriveBy, derivativeVar) :: rest =>
    if pred var stmt deriveBy then
      let newId := mir.statements.length
      let mir1 : MirState :=
        { mir with statements :=
            mir.statements ++ [.assignment attr derivativeVar (pd expr deriveBy)] }
      let res := recur mir1 (dst ++ [newId]) newId
      derivPairsAux recur pd pred attr var expr stmt res.1 res.2 rest
    else
      derivPairsAux recur pd pred attr var expr stmt mir dst rest

/-- `AutoDiff::stmt_derivatives`: for an assignment with registered
derivatives, append one derivative assignment per registered pair to
`dst`, recursing on each newly created statement for higher-order
derivatives. -/
def stmtDerivatives (pd : RealExpressionId → Unknown → RealExpressionId)
    (pred : VariableId → StatementId → Unknown → Bool) :
    Nat → MirState → List StatementId → StatementId →
    MirState × List StatementId
  | 0, mir, dst, _ => (mir, dst)
  | fuel + 1, mir, dst, stmt =>
    match mir.statements[stmt]? with
    | some (.assignment attr var expr) =>
      match derivativesOf mir.derivatives var with
      | some pairs =>
        derivPairsAux (stmtDerivatives pd pred fuel) pd pred attr var expr
          stmt mir dst pairs
      | none => (mir, dst)
    | _ => (mir, dst)

/-- The per-block loop of `ControlFlowGraph::demand_derivatives`: the old
statements are re-pushed in reverse order, each immediately followed by
its derivative statements. -/
def revLoop (pd : RealExpressionId → Unknown → RealExpressionId)
    (pred : VariableId → StatementId → Unknown → Bool) (fuel : Nat) :
    MirState → List StatementId → List StatementId →
    MirState × List StatementId
  | mir, acc, [] => (mir, acc)
  | mir, acc, stmt :: rest =>
    let res := stmtDerivatives pd pred fuel mir (acc ++ [stmt]) stmt
    revLoop pd pred fuel res.1 res.2 rest

/-- `ControlFlowGraph::demand_derivatives` restricted to one basic block:
swap the statement list out, process it in reverse pushing each statement
and then its derivatives, and finally reverse the accumulated list. -/
def demandBlockDerivatives (pd : RealExpressionId → Unknown → RealExpressionId)
    (pred : VariableId → StatementId → Unknown → Bool) (fuel : Nat)
    (mir : MirState) (old : List StatementId) : MirState × List StatementId :=
  let res := revLoop pd pred fuel mir [] old.reverse
  (res.1, res.2.reverse)

/-- Contents of the statement arena at an id (statement ids in the claims
are always in bounds; the default is never reached there). -/
def stmtAt (mir : MirState) (i : StatementId) : Statement :=
  mir.statements.getD i .other

/-- Contents of a list of statement ids. -/
def stmtsAt (mir : MirState) (ids : List StatementId) : List Statement :=
  ids.map (stmtAt mir)

/-- The derivative assignments the pass creates for one source statement,
in registration order of the derivative map (before any reversal). -/
def derivStmts (pd : RealExpressionId → Unknown → RealExpressionId)
    (pred : VariableId → StatementId → Unknown → Bool) (mir : MirState)
    (s : StatementId) : List Statement :=
  match stmtAt mir s with
  | .assignment attr var expr =>
    ((derivativesOf mir.derivatives var).getD []).filterMap fun p =>
      if pred var s p.1 then
        some (.assignment attr p.2 (pd expr p.1))
      else none
  | .other => []

/-- A derivative map is first order when no derivative variable of a
registered pair has registered derivatives of its own. -/
def FirstOrder (mir : MirState) : Prop :=
  ∀ e ∈ mir.derivatives, ∀ p ∈ e.2, derivativesOf mir.derivatives p.2 = none

/-- The derivative assignments created for the registered pairs of one
assignment `var := expr` (with attribute `attr`) at statement id `stmt`,
in registration order. -/
def pairDerivStmts (pd : RealExpressionId → Unknown → RealExpressionId)
    (pred : VariableId → StatementId → Unknown → Bool) (attr : Nat)
    (var : VariableId) (expr : RealExpressionId) (stmt : StatementId)
    (pairs : List (Unknown × VariableId)) : List Statement :=
  pairs.filterMap fun p =>
    if pred var stmt p.1 then
      some (.assignment attr p.2 (pd expr p.1))
    else none

end AutoDiff

namespace SimBack

/-!
Embedding of the Jacobian assembly (`crates/sim_back/src/matrix.rs`).
MIR `Value`s are dense ids; the instruction builder (`FuncCursor`) hands
out fresh ids and records the emitted instructions in order.  The
insertion-ordered `TiMap`s are association lists.  The derivative lookup
`derivatives.get(&(rhs, unkown))`, where `unkown` is obtained from the
interner's callback index of `CallBackKind::Derivative(param)`, is
modelled as a function of the output value and the parameter index; the
parameter list carries its indices explicitly, mirroring
`iter_enumerated`. -/

abbrev NodeId := Nat
abbrev Value := Nat
abbrev BranchId := Nat
abbrev ParamIdx := Nat

/-- Resolved branch kinds (`hir_ty::lower::BranchKind`). -/
inductive BranchKind where
  | NodeGnd (node : NodeId)
  | Nodes (hi lo : NodeId)
  | PortFlow (port : Nat)
deriving DecidableEq

/-- Output place kinds the assembly inspects. -/
inductive PlaceKind where
  | BranchVoltage
  | ImplicitBranchVoltage
  | BranchCurrent (branch : BranchId) (reactive : Bool)
  | ImplicitBranchCurrent (hi : NodeId) (lo : Option NodeId) (reactive : Bool)
  | OtherPlace
deriving DecidableEq

/-- Interned parameter kinds; only voltages contribute entries. -/
inductive ParamKind where
  | Voltage (hi : NodeId) (lo : Option NodeId)
  | OtherParam
deriving DecidableEq

/-- The queries `populate` makes of the compilation database. -/
structure CompilationDB where
  branchInfo : BranchId → Option BranchKind
  isGnd : NodeId → Bool

/-- A key of the Jacobian maps. -/
structure MatrixEntry where
  row : NodeId
  col : NodeId
deriving DecidableEq

/-- The IR instructions `populate` can emit. -/
inductive Inst where
  | fadd (a b : Value)
  | fsub (a b : Value)
  | fneg (a : Value)
deriving DecidableEq

/-- The instruction builder: fresh value ids in order, plus the emitted
instruction list. -/
structure FuncCursor where
  nextValue : Value
  insts : List (Value × Inst)
deriving DecidableEq

/-- `func.ins().xxx(..)`: emit one instruction, define a fresh value. -/
def FuncCursor.ins (f : FuncCursor) (i : Inst) : Value × FuncCursor :=
  (f.nextValue, ⟨f.nextValue + 1, f.insts ++ [(f.nextValue, i)]⟩)

/-- The canonical zero value `F_ZERO`. -/
def F_ZERO : Value := 0

/-- Insertion-ordered map from matrix entries to values. -/
abbrev TiMap := List (MatrixEntry × Value)

/-- Key lookup. -/
def TiMap.getVal (m : TiMap) (k : MatrixEntry) : Option Value :=
  (m.find? (fun p => p.1 == k)).map (·.2)

/-- In-place update of an existing key (insertion order preserved). -/
def TiMap.setVal (m : TiMap) (k : MatrixEntry) (v : Value) : TiMap :=
  m.map fun p => if p.1 = k then (k, v) else p

/-- The two insertion-ordered Jacobian maps. -/
structure JacobianMatrix where
  resistive : TiMap
  reactive : TiMap
deriving DecidableEq

/-- `JacobianMatrix::ensure_entry`: on an occupied key combine with an
`fadd`/`fsub` whose left operand is the existing value; on a vacant key a
negative contribution is materialised with `fneg`. -/
def JacobianMatrix.ensureEntry (m : JacobianMatrix) (f : FuncCursor)
    (row col : NodeId) (val : Value) (neg reactive : Bool) :
    JacobianMatrix × FuncCursor :=
  let dst := if reactive then m.reactive else m.resistive
  let k : MatrixEntry := ⟨row, col⟩
  match dst.getVal k with
  | some old =>
    let r := f.ins (if neg then .fsub old val else .fadd old val)
    let dst1 := dst.setVal k r.1
    (if reactive then { m with reactive := dst1 }
     else { m with resistive := dst1 }, r.2)
  | none =>
    if neg then
      let r := f.ins (.fneg val)
      (if reactive then { m with reactive := dst ++ [(k, r.1)] }
       else { m with resistive := dst ++ [(k, r.1)] }, r.2)
    else
      (if reactive then { m with reactive := dst ++ [(k, val)] }
       else { m with resistive := dst ++ [(k, val)] }, f)

/-- The inner loop of `populate` over the interned parameters, for one
output with row endpoints `rowHi` / `rowLo`. -/
def stampParams (db : CompilationDB)
    (derivatives : Value → ParamIdx → Option Value) (rhs : Value)
    (rowHi : NodeId) (rowLo : Option NodeId) (reactive : Bool) :
    JacobianMatrix × FuncCursor → List (ParamIdx × ParamKind) →
    JacobianMatrix × FuncCursor
  | st, [] => st
  | st, (param, kind) :: rest =>
    match kind with
    | .OtherParam => stampParams db derivatives rhs rowHi rowLo reactive st rest
    | .Voltage colHi colLo =>
      match derivatives rhs param with
      | none => stampParams db derivatives rhs rowHi rowLo reactive st rest
      | some ddx =>
        if ddx = F_ZERO then
          stampParams db derivatives rhs rowHi rowLo reactive st rest
        else
          let hiGnd := db.isGnd rowHi
          let loGnd := match rowLo with
            | some lo => db.isGnd lo
            | none => true
          let st1 :=
            if hiGnd then st
            else
              let stA := st.1.ensureEntry st.2 rowHi colHi ddx false reactive
              match colLo with
              | some cl => stA.1.ensureEntry stA.2 rowHi cl ddx true reactive
              | none => stA
          let st2 :=
            match rowLo with
            | some rl =>
              if loGnd then st1
              else
                let stB := st1.1.ensureEntry st1.2 rl colHi ddx true reactive
                match colLo with
                | some cl => stB.1.ensureEntry stB.2 rl cl ddx false reactive
                | none => stB
            | none => st1
          stampParams db derivatives rhs rowHi rowLo reactive st2 rest

/-- `JacobianMatrix::populate`: iterate the interner's outputs, determine
the row endpoints from the branch kind, and stamp every voltage
parameter's registered derivative.  `none` models the panics of the
original (`todo!` on voltage contributions, `unreachable!` on port-flow
branches, `unwrap` on missing branch info). -/
def populate (db : CompilationDB)
    (derivatives : Value → ParamIdx → Option Value)
    (params : List (ParamIdx × ParamKind)) :
    JacobianMatrix × FuncCursor → List (PlaceKind × Value) →
    Option (JacobianMatrix × FuncCursor)
  | st, [] => some st
  | st, (outKind, rhs) :: rest =>
    match outKind with
    | .BranchVoltage => none
    | .ImplicitBranchVoltage => none
    | .BranchCurrent branch reactive =>
      match db.branchInfo branch with
      | none => none
      | some (.NodeGnd node) =>
        populate db derivatives params
          (stampParams db derivatives rhs node none reactive st params) rest
      | some (.Nodes hi lo) =>
        populate db derivatives params
          (stampParams db derivatives rhs hi (some lo) reactive st params) rest
      | some (.PortFlow _) => none
    | .ImplicitBranchCurrent hi lo reactive =>
      populate db derivatives params
        (stampParams db derivatives rhs hi lo reactive st params) rest
    | .OtherPlace => populate db derivatives params st rest

/-- Every key of the matrix (in either map) has a non-ground row node. -/
def jacRowsOk (db : CompilationDB) (j : JacobianMatrix) : Prop :=
  ∀ p : MatrixEntry × Value,
    p ∈ j.resistive ∨ p ∈ j.reactive → db.isGnd p.1.row = false

end SimBack

namespace ConstFold

/-- C1: the claim says folding the integer quotient `5 / 0` emits exactly
one ConstantOverflow lint against the enclosing expression's span and
returns `None` without panicking.  Evaluating the embedded fold at this
failing input shows the code dispatches the single lint (span 7) and then
panics in the host `i64` division; the `None` behaviour only occurs when
the dividend is unknown (second conjunct). -/
theorem C1_integer_div_by_zero_panics :
    foldIntegerExpr (fun _ _ => 0) NoConstResolution
      (.binaryOperator 7 (.literal 1 5) .Quotient (.literal 2 0)) =
      .panic [7] ∧
    foldIntegerExpr (fun _ _ => 0) NoConstResolution
      (.binaryOperator 7 (.variableReference 1 0) .Quotient (.literal 2 0)) =
      .ok none (.binaryOperator 7 (.variableReference 1 0) .Quotient
        (.literal 2 0)) [7] := by
  constructor <;> decide

/-- C2 counterexample: folding the real comparison `1.0 == 1.0 + 2^-52`
returns 0, i.e. the two folded doubles are compared exactly, although the
default-margin approximate comparison holds for this pair; so the `==`
case is not decided by the approximate comparison. -/
theorem C2_real_eq_exact_compare_counterexample :
    foldIntegerExpr (fun _ _ => 0) NoConstResolution
      (.realComparison 5 (.literal 1 1) .Equal
        (.literal 2 (1 + 1 / 2 ^ 52))) =
      .ok (some 0) (.literal 5 0) [] ∧
    approxEq 1 (1 + 1 / 2 ^ 52) = true := by
  constructor
  · simp only [foldIntegerExpr, foldRealExpr, realCmpOp, withStrict,
      intLiteralize, IntegerExpression.span]
    norm_num
  · simp only [approxEq]
    norm_num [abs_of_nonneg]

/-- C2 (amended): when both real operands fold, `!=` is decided by the
default-margin approximate comparison (`approx_ne`), but `==` is decided
by exact comparison of the two folded values. -/
theorem C2_real_neq_approx_eq_exact (pw : ℚ → ℚ → ℚ) (r : ConstResolver)
    (sp : Span) (lhs rhs : RealExpression) (a b : ℚ)
    (le re : RealExpression) (ll lr : List Span)
    (hl : foldRealExpr pw r lhs = .ok (some a) le ll)
    (hr : foldRealExpr pw r rhs = .ok (some b) re lr) :
    foldIntegerExpr pw r (.realComparison sp lhs .Equal rhs) =
      .ok (some (if a = b then 1 else 0))
        (.literal sp (if a = b then 1 else 0)) (ll ++ lr) ∧
    foldIntegerExpr pw r (.realComparison sp lhs .NotEqual rhs) =
      .ok (some (if approxNe a b then 1 else 0))
        (.literal sp (if approxNe a b then 1 else 0)) (ll ++ lr) := by
  constructor <;>
    simp [foldIntegerExpr, realCmpOp, withStrict, hl, hr, intLiteralize,
      IntegerExpression.span]

/-- C2 witness: the amended theorem at the concrete pair `2.0` and `3.0`
(`==` folds to 0 exactly; `!=` folds to 1 because the approximate
comparison rejects the pair). -/
theorem C2_real_neq_approx_eq_exact_witness :
    foldIntegerExpr (fun _ _ => 0) NoConstResolution
      (.realComparison 9 (.literal 1 2) .Equal (.literal 2 3)) =
      .ok (some 0) (.literal 9 0) [] ∧
    foldIntegerExpr (fun _ _ => 0) NoConstResolution
      (.realComparison 9 (.literal 1 2) .NotEqual (.literal 2 3)) =
      .ok (some 1) (.literal 9 1) [] := by
  have h := C2_real_neq_approx_eq_exact (fun _ _ => 0) NoConstResolution 9
    (.literal 1 2) (.literal 2 3) 2 3 (.literal 1 2) (.literal 2 3) [] []
    rfl rfl
  have hne : approxNe (2 : ℚ) 3 = true := by
    simp only [approxNe, approxEq]
    norm_num
  have heq : ((2 : ℚ) = 3) = False := by norm_num
  simp only [hne, heq, ite_true, ite_false, if_true, if_false,
    List.append_nil] at h
  simpa using h

/-- C3: the claim says the mutating fold of the fully evaluable real
expression `2.0 * (3.0 + 4.0)` returns `Some 14.0` and rewrites the
expression's contents to the literal `14.0`.  Evaluating the embedded
fold at this failing input shows the value `Some 14.0` is returned but
the expression is left completely unchanged: the real fold has no
overwrite on success (unlike the integer and string folds), contradicting
the claim and the fold's own documentation example. -/
theorem C3_real_fold_returns_value_without_rewrite :
    foldRealExpr (fun _ _ => 0) NoConstResolution
      (.binaryOperator 0 (.literal 1 2) .Mul
        (.binaryOperator 2 (.literal 3 3) .Sum (.literal 4 4))) =
      .ok (some 14)
        (.binaryOperator 0 (.literal 1 2) .Mul
          (.binaryOperator 2 (.literal 3 3) .Sum (.literal 4 4))) [] ∧
    (RealExpression.binaryOperator 0 (.literal 1 2) .Mul
        (.binaryOperator 2 (.literal 3 3) .Sum (.literal 4 4))) ≠
      .literal 0 14 := by
  constructor
  · simp only [foldRealExpr, realBinOp, withBoth, foldMul, foldPlus,
      applySideReal]
    norm_num
  · decide

/-- C4: the claim says an integer binary expression with one operand at
the operator's identity element and the other unknown is rewritten to the
unknown operand, never to the known constant side.  Evaluating the
embedded fold at the failing inputs (variable 0 is unknown) shows the
code rewrites `x || 0`, `0 | x` and `x & INT_MAX` to the KNOWN constant
operand's contents (the literal 0 resp. INT_MAX), changing the
expression's meaning, and returns `None`. -/
theorem C4_identity_fold_rewrites_to_known_side :
    foldIntegerExpr (fun _ _ => 0) NoConstResolution
      (.binaryOperator 5 (.variableReference 1 0) .LogicOr (.literal 2 0)) =
      .ok none (.literal 5 0) [] ∧
    foldIntegerExpr (fun _ _ => 0) NoConstResolution
      (.binaryOperator 5 (.literal 1 0) .Or (.variableReference 2 0)) =
      .ok none (.literal 5 0) [] ∧
    foldIntegerExpr (fun _ _ => 0) NoConstResolution
      (.binaryOperator 5 (.variableReference 1 0) .And
        (.literal 2 I64_MAX)) =
      .ok none (.literal 5 I64_MAX) [] := by
  refine ⟨?_, ?_, ?_⟩ <;> decide

/-- C9 counterexample: an integer power whose exponent folds to exactly
2^32 already emits the ConstantOverflow lint and folds to `None`,
although the claim says exponents of at most 2^32 are evaluated without
the lint. -/
theorem C9_pow_lint_boundary_counterexample :
    foldIntegerExpr (fun _ _ => 0) NoConstResolution
      (.binaryOperator 7 (.literal 1 2) .Pow (.literal 2 4294967296)) =
      .ok none (.binaryOperator 7 (.literal 1 2) .Pow
        (.literal 2 4294967296)) [7] := by
  decide

/-- C9 (amended): for an integer power whose exponent folds to `k`, a
negative `k` always folds to `Some 0`; `0 ≤ k ≤ u32::MAX = 2^32 - 1` is
evaluated with no new lint; and `k ≥ 2^32` emits exactly one
ConstantOverflow lint at the node's span, after which the exponent is
treated as unknown, so the fold yields `None` unless the base folded to
0 or 1. -/
theorem C9_int_pow_exponent_ranges (pw : ℚ → ℚ → ℚ) (r : ConstResolver)
    (sp : Span) (lhs rhs : IntegerExpression) (lv : Option Int) (k : Int)
    (le re : IntegerExpression) (ll lr : List Span)
    (hl : foldIntegerExpr pw r lhs = .ok lv le ll)
    (hr : foldIntegerExpr pw r rhs = .ok (some k) re lr) :
    (k ≤ -1 →
      foldIntegerExpr pw r (.binaryOperator sp lhs .Pow rhs) =
        .ok (some 0) (.literal sp 0) (ll ++ lr)) ∧
    (0 ≤ k → k ≤ U32_MAX_I64 →
      ∃ v e, foldIntegerExpr pw r (.binaryOperator sp lhs .Pow rhs) =
        .ok v e (ll ++ lr)) ∧
    (U32_MAX_I64 < k →
      foldIntegerExpr pw r (.binaryOperator sp lhs .Pow rhs) =
        (if lv = some 0 then .ok (some 0) (.literal sp 0) (ll ++ lr ++ [sp])
         else if lv = some 1 then
           .ok (some 1) (.literal sp 1) (ll ++ lr ++ [sp])
         else .ok none (.binaryOperator sp le .Pow re)
           (ll ++ lr ++ [sp]))) := by
  refine ⟨?_, ?_, ?_⟩
  · intro hk
    simp [foldIntegerExpr, intBinOp, withBoth, hl, hr, hk, intLiteralize,
      IntegerExpression.span]
  · intro h0 hmax
    have hk : ¬ k ≤ -1 := by omega
    simp only [foldIntegerExpr, intBinOp, withBoth, hl, hr, hk, hmax,
      if_true, if_false, ite_true, ite_false, IntegerExpression.span]
    rcases hfp : foldPow i64PowU32 lv (some k.toNat) with ⟨v1, side⟩
    cases v1 <;> simp [intLiteralize]
  · intro hk
    rw [U32_MAX_I64] at hk
    have hk1 : ¬ k ≤ -1 := by omega
    have hk2 : ¬ k ≤ U32_MAX_I64 := by rw [U32_MAX_I64]; omega
    rcases lv with _ | b
    · simp [foldIntegerExpr, intBinOp, withBoth, hl, hr, hk1, hk2, foldPow,
        applySideInt, intLiteralize, IntegerExpression.span]
    · by_cases hb0 : b = 0
      · subst hb0
        simp [foldIntegerExpr, intBinOp, withBoth, hl, hr, hk1, hk2,
          foldPow, applySideInt, intLiteralize, IntegerExpression.span]
      · by_cases hb1 : b = 1
        · subst hb1
          simp [foldIntegerExpr, intBinOp, withBoth, hl, hr, hk1, hk2,
            foldPow, applySideInt, intLiteralize, IntegerExpression.span]
        · simp [foldIntegerExpr, intBinOp, withBoth, hl, hr, hk1, hk2,
            foldPow, hb0, hb1, applySideInt, intLiteralize,
            IntegerExpression.span]

/-- C9 witness: the amended theorem applied at `2 ^ (-3)` (negative
exponent folds to 0), `2 ^ 7` (in-range exponent, no lint), and
`3 ^ 2^33` (lint at span 7, fold `None`). -/
theorem C9_int_pow_exponent_ranges_witness :
    foldIntegerExpr (fun _ _ => 0) NoConstResolution
      (.binaryOperator 7 (.literal 1 2) .Pow (.literal 2 (-3))) =
      .ok (some 0) (.literal 7 0) [] ∧
    (∃ v e, foldIntegerExpr (fun _ _ => 0) NoConstResolution
      (.binaryOperator 7 (.literal 1 2) .Pow (.literal 2 7)) =
      .ok v e []) ∧
    foldIntegerExpr (fun _ _ => 0) NoConstResolution
      (.binaryOperator 7 (.literal 1 3) .Pow (.literal 2 8589934592)) =
      .ok none (.binaryOperator 7 (.literal 1 3) .Pow
        (.literal 2 8589934592)) [7] := by
  refine ⟨?_, ?_, ?_⟩
  · have h := (C9_int_pow_exponent_ranges (fun _ _ => 0) NoConstResolution 7
      (.literal 1 2) (.literal 2 (-3)) (some 2) (-3) (.literal 1 2)
      (.literal 2 (-3)) [] [] rfl rfl).1 (by norm_num)
    simpa using h
  · have h := (C9_int_pow_exponent_ranges (fun _ _ => 0) NoConstResolution 7
      (.literal 1 2) (.literal 2 7) (some 2) 7 (.literal 1 2)
      (.literal 2 7) [] [] rfl rfl).2.1 (by norm_num)
      (by rw [U32_MAX_I64]; norm_num)
    simpa using h
  · have h := (C9_int_pow_exponent_ranges (fun _ _ => 0) NoConstResolution 7
      (.literal 1 3) (.literal 2 8589934592) (some 3) 8589934592
      (.literal 1 3) (.literal 2 8589934592) [] [] rfl rfl).2.2
      (by rw [U32_MAX_I64]; norm_num)
    simpa using h

end ConstFold

namespace ConstFold

/-- C8: a multiplication folds to `Some 0` whenever either operand folds
to the literal zero, even when the other operand is unknown, for both the
integer and the real fold; a power with a literal-zero base folds to
`Some 0` for any exponent (known, unknown, or lint-triggering), and a
power whose exponent folds to 0 folds to `Some 0` for any base. -/
theorem C8_mul_and_pow_zero_absorption :
    (∀ (pw : ℚ → ℚ → ℚ) (r : ConstResolver) (sp : Span)
        (lhs rhs : IntegerExpression) (lv rv : Option Int)
        (le re : IntegerExpression) (ll lr : List Span),
      foldIntegerExpr pw r lhs = .ok lv le ll →
      foldIntegerExpr pw r rhs = .ok rv re lr →
      lv = some 0 ∨ rv = some 0 →
      foldIntegerExpr pw r (.binaryOperator sp lhs .Mul rhs) =
        .ok (some 0) (.literal sp 0) (ll ++ lr)) ∧
    (∀ (pw : ℚ → ℚ → ℚ) (r : ConstResolver) (sp : Span)
        (lhs rhs : RealExpression) (lv rv : Option ℚ)
        (le re : RealExpression) (ll lr : List Span),
      foldRealExpr pw r lhs = .ok lv le ll →
      foldRealExpr pw r rhs = .ok rv re lr →
      lv = some 0 ∨ rv = some 0 →
      foldRealExpr pw r (.binaryOperator sp lhs .Mul rhs) =
        .ok (some 0) (.binaryOperator sp le .Mul re) (ll ++ lr)) ∧
    (∀ (pw : ℚ → ℚ → ℚ) (r : ConstResolver) (sp : Span)
        (lhs rhs : IntegerExpression) (rv : Option Int)
        (le re : IntegerExpression) (ll lr : List Span),
      foldIntegerExpr pw r lhs = .ok (some 0) le ll →
      foldIntegerExpr pw r rhs = .ok rv re lr →
      ∃ extra, foldIntegerExpr pw r (.binaryOperator sp lhs .Pow rhs) =
        .ok (some 0) (.literal sp 0) (ll ++ lr ++ extra)) ∧
    (∀ (pw : ℚ → ℚ → ℚ) (r : ConstResolver) (sp : Span)
        (lhs rhs : IntegerExpression) (lv : Option Int)
        (le re : IntegerExpression) (ll lr : List Span),
      foldIntegerExpr pw r lhs = .ok lv le ll →
      foldIntegerExpr pw r rhs = .ok (some 0) re lr →
      foldIntegerExpr pw r (.binaryOperator sp lhs .Pow rhs) =
        .ok (some 0) (.literal sp 0) (ll ++ lr)) ∧
    (∀ (pw : ℚ → ℚ → ℚ) (r : ConstResolver) (sp : Span)
        (lhs rhs : RealExpression) (rv : Option ℚ)
        (le re : RealExpression) (ll lr : List Span),
      foldRealExpr pw r lhs = .ok (some 0) le ll →
      foldRealExpr pw r rhs = .ok rv re lr →
      foldRealExpr pw r (.binaryOperator sp lhs .Pow rhs) =
        .ok (some 0) (.binaryOperator sp le .Pow re) (ll ++ lr)) ∧
    (∀ (pw : ℚ → ℚ → ℚ) (r : ConstResolver) (sp : Span)
        (lhs rhs : RealExpression) (lv : Option ℚ)
        (le re : RealExpression) (ll lr : List Span),
      foldRealExpr pw r lhs = .ok lv le ll →
      foldRealExpr pw r rhs = .ok (some 0) re lr →
      foldRealExpr pw r (.binaryOperator sp lhs .Pow rhs) =
        .ok (some 0) (.binaryOperator sp le .Pow re) (ll ++ lr)) := by
  refine ⟨?_, ?_, ?_, ?_, ?_, ?_⟩
  · intro pw r sp lhs rhs lv rv le re ll lr hl hr hz
    rcases hz with rfl | rfl
    · cases rv <;>
        simp [foldIntegerExpr, intBinOp, withBoth, hl, hr, foldMul,
          applySideInt, intLiteralize, IntegerExpression.span]
    · cases lv <;>
        simp [foldIntegerExpr, intBinOp, withBoth, hl, hr, foldMul,
          applySideInt, intLiteralize, IntegerExpression.span]
  · intro pw r sp lhs rhs lv rv le re ll lr hl hr hz
    rcases hz with rfl | rfl
    · cases rv <;>
        simp [foldRealExpr, realBinOp, withBoth, hl, hr, foldMul,
          applySideReal]
    · cases lv <;>
        simp [foldRealExpr, realBinOp, withBoth, hl, hr, foldMul,
          applySideReal]
  · intro pw r sp lhs rhs rv le re ll lr hl hr
    rcases rv with _ | k
    · exact ⟨[], by
        simp [foldIntegerExpr, intBinOp, withBoth, hl, hr, foldPow,
          applySideInt, intLiteralize, IntegerExpression.span]⟩
    · by_cases hk : k ≤ -1
      · exact ⟨[], by
          simp [foldIntegerExpr, intBinOp, withBoth, hl, hr, hk,
            intLiteralize, IntegerExpression.span]⟩
      · by_cases hk2 : k ≤ U32_MAX_I64
        · refine ⟨[], ?_⟩
          simp [foldIntegerExpr, intBinOp, withBoth, hl, hr, hk, hk2,
            foldPow, applySideInt, intLiteralize, IntegerExpression.span]
        · refine ⟨[sp], ?_⟩
          simp [foldIntegerExpr, intBinOp, withBoth, hl, hr, hk, hk2,
            foldPow, applySideInt, intLiteralize, IntegerExpression.span]
  · intro pw r sp lhs rhs lv le re ll lr hl hr
    simp [foldIntegerExpr, intBinOp, withBoth, hl, hr, U32_MAX_I64,
      foldPow, applySideInt, intLiteralize, IntegerExpression.span]
  · intro pw r sp lhs rhs rv le re ll lr hl hr
    rcases rv with _ | e
    · simp [foldRealExpr, realBinOp, withBoth, hl, hr, foldPow,
        applySideReal]
    · by_cases he : e = 0 <;>
        simp [foldRealExpr, realBinOp, withBoth, hl, hr, foldPow, he,
          applySideReal]
  · intro pw r sp lhs rhs lv le re ll lr hl hr
    simp [foldRealExpr, realBinOp, withBoth, hl, hr, foldPow,
      applySideReal]

/-- C8 witness: the six absorption cases at concrete inputs, each with an
unknown (unresolved variable) operand on the non-zero side. -/
theorem C8_mul_and_pow_zero_absorption_witness :
    foldIntegerExpr (fun _ _ => 0) NoConstResolution
      (.binaryOperator 5 (.variableReference 1 0) .Mul (.literal 2 0)) =
      .ok (some 0) (.literal 5 0) [] ∧
    foldRealExpr (fun _ _ => 0) NoConstResolution
      (.binaryOperator 5 (.literal 1 0) .Mul (.variableReference 2 0)) =
      .ok (some 0) (.binaryOperator 5 (.literal 1 0) .Mul
        (.variableReference 2 0)) [] ∧
    (∃ extra, foldIntegerExpr (fun _ _ => 0) NoConstResolution
      (.binaryOperator 5 (.literal 1 0) .Pow (.variableReference 2 0)) =
      .ok (some 0) (.literal 5 0) ([] ++ [] ++ extra)) ∧
    foldIntegerExpr (fun _ _ => 0) NoConstResolution
      (.binaryOperator 5 (.variableReference 1 0) .Pow (.literal 2 0)) =
      .ok (some 0) (.literal 5 0) [] ∧
    foldRealExpr (fun _ _ => 0) NoConstResolution
      (.binaryOperator 5 (.literal 1 0) .Pow (.variableReference 2 0)) =
      .ok (some 0) (.binaryOperator 5 (.literal 1 0) .Pow
        (.variableReference 2 0)) [] ∧
    foldRealExpr (fun _ _ => 0) NoConstResolution
      (.binaryOperator 5 (.variableReference 1 0) .Pow (.literal 2 0)) =
      .ok (some 0) (.binaryOperator 5 (.variableReference 1 0) .Pow
        (.literal 2 0)) [] := by
  refine ⟨?_, ?_, ?_, ?_, ?_, ?_⟩
  · have h := C8_mul_and_pow_zero_absorption.1 (fun _ _ => 0)
      NoConstResolution 5 (.variableReference 1 0) (.literal 2 0) none
      (some 0) (.variableReference 1 0) (.literal 2 0) [] [] rfl rfl
      (Or.inr rfl)
    simpa using h
  · have h := C8_mul_and_pow_zero_absorption.2.1 (fun _ _ => 0)
      NoConstResolution 5 (.literal 1 0) (.variableReference 2 0) (some 0)
      none (.literal 1 0) (.variableReference 2 0) [] [] rfl rfl
      (Or.inl rfl)
    simpa using h
  · have h := C8_mul_and_pow_zero_absorption.2.2.1 (fun _ _ => 0)
      NoConstResolution 5 (.literal 1 0) (.variableReference 2 0) none
      (.literal 1 0) (.variableReference 2 0) [] [] rfl rfl
    exact h
  · have h := C8_mul_and_pow_zero_absorption.2.2.2.1 (fun _ _ => 0)
      NoConstResolution 5 (.variableReference 1 0) (.literal 2 0) none
      (.variableReference 1 0) (.literal 2 0) [] [] rfl rfl
    simpa using h
  · have h := C8_mul_and_pow_zero_absorption.2.2.2.2.1 (fun _ _ => 0)
      NoConstResolution 5 (.literal 1 0) (.variableReference 2 0) none
      (.literal 1 0) (.variableReference 2 0) [] [] rfl rfl
    simpa using h
  · have h := C8_mul_and_pow_zero_absorption.2.2.2.2.2 (fun _ _ => 0)
      NoConstResolution 5 (.variableReference 1 0) (.literal 2 0) none
      (.variableReference 1 0) (.literal 2 0) [] [] rfl rfl
    simpa using h

/-- C10: folding an integer unary expression with the logical-negate
operator on an operand folding to `v` produces the bitwise complement
`-(v + 1)`, exactly as bit negate does, and the node is rewritten to that
literal. -/
theorem C10_logic_negate_folds_as_bit_negate (pw : ℚ → ℚ → ℚ)
    (r : ConstResolver) (sp : Span) (arg : IntegerExpression) (v : Int)
    (ae : IntegerExpression) (l : List Span)
    (h : foldIntegerExpr pw r arg = .ok (some v) ae l) :
    foldIntegerExpr pw r (.unaryOperator sp .LogicNegate arg) =
      .ok (some (-(v + 1))) (.literal sp (-(v + 1))) l ∧
    foldIntegerExpr pw r (.unaryOperator sp .BitNegate arg) =
      .ok (some (-(v + 1))) (.literal sp (-(v + 1))) l := by
  constructor <;>
    simp [foldIntegerExpr, intUnaryStep, h, intLiteralize,
      IntegerExpression.span, i64Not]

/-- C10 witness: logical negation of the literal 1 folds to `Some (-2)`
(the bitwise complement), not to the boolean 0, identically to bit
negation. -/
theorem C10_logic_negate_folds_as_bit_negate_witness :
    foldIntegerExpr (fun _ _ => 0) NoConstResolution
      (.unaryOperator 5 .LogicNegate (.literal 1 1)) =
      .ok (some (-2)) (.literal 5 (-2)) [] ∧
    foldIntegerExpr (fun _ _ => 0) NoConstResolution
      (.unaryOperator 5 .BitNegate (.literal 1 1)) =
      .ok (some (-2)) (.literal 5 (-2)) [] := by
  have h := C10_logic_negate_folds_as_bit_negate (fun _ _ => 0)
    NoConstResolution 5 (.literal 1 1) 1 (.literal 1 1) [] rfl
  simpa using h

end ConstFold

namespace AutoDiff

theorem flatMap_congrOn {α β : Type} :
    ∀ (l : List α) (f g : α → List β), (∀ x ∈ l, f x = g x) →
    l.flatMap f = l.flatMap g := by
  intro l
  induction l with
  | nil => intro f g h; rfl
  | cons x xs ih =>
    intro f g h
    simp only [List.flatMap_cons]
    rw [h x (by simp), ih f g (fun y hy => h y (by simp [hy]))]

theorem reverse_flatMapOn {α β : Type} :
    ∀ (l : List α) (f : α → List β),
    (l.flatMap f).reverse = l.reverse.flatMap fun x => (f x).reverse := by
  intro l
  induction l with
  | nil => intro f; rfl
  | cons x xs ih =>
    intro f
    simp only [List.flatMap_cons, List.reverse_append, List.reverse_cons,
      List.flatMap_append, ih]
    simp

theorem stmtAt_extends (m1 m2 : MirState) (i : StatementId)
    (hpre : ∃ ext, m2.statements = m1.statements ++ ext)
    (hi : i < m1.statements.length) : stmtAt m2 i = stmtAt m1 i := by
  obtain ⟨ext, hext⟩ := hpre
  simp only [stmtAt, hext, List.getD_eq_getElem?_getD,
    List.getElem?_append_left hi]

theorem derivStmts_extends (pd : RealExpressionId → Unknown → RealExpressionId)
    (pred : VariableId → StatementId → Unknown → Bool) (m1 m2 : MirState)
    (s : StatementId) (hpre : ∃ ext, m2.statements = m1.statements ++ ext)
    (hder : m2.derivatives = m1.derivatives)
    (hs : s < m1.statements.length) :
    derivStmts pd pred m2 s = derivStmts pd pred m1 s := by
  unfold derivStmts
  rw [stmtAt_extends m1 m2 s hpre hs, hder]

theorem stmtsAt_range' (dv : List (VariableId × List (Unknown × VariableId))) :
    ∀ (D pre post : List Statement),
    stmtsAt ⟨pre ++ D ++ post, dv⟩ (List.range' pre.length D.length) = D := by
  intro D
  induction D with
  | nil => intro pre post; simp [stmtsAt]
  | cons d D' ih =>
    intro pre post
    simp only [List.length_cons, List.range'_succ _ _ 1, stmtsAt, List.map_cons]
    have hh : stmtAt ⟨pre ++ d :: D' ++ post, dv⟩ pre.length = d := by
      have hq : (pre ++ d :: D' ++ post)[pre.length]? = some d := by
        have h1 : pre ++ d :: D' ++ post = (pre ++ [d]) ++ (D' ++ post) := by
          simp
        rw [h1, List.getElem?_append_left (by simp),
          List.getElem?_concat_length]
      simp only [stmtAt, List.getD_eq_getElem?_getD, hq, Option.getD_some]
    rw [hh]
    have ht := ih (pre ++ [d]) post
    simp only [stmtsAt, List.length_append, List.length_cons, List.length_nil] at ht
    have he : (pre ++ [d]) ++ D' ++ post = pre ++ d :: D' ++ post := by simp
    rw [he] at ht
    rw [ht]

end AutoDiff

namespace AutoDiff

theorem derivPairsAux_spec (pd : RealExpressionId → Unknown → RealExpressionId)
    (pred : VariableId → StatementId → Unknown → Bool) (fuel : Nat)
    (attr : Nat) (var : VariableId) (expr : RealExpressionId)
    (stmt : StatementId) :
    ∀ (pairs : List (Unknown × VariableId)) (mir : MirState)
      (dst : List StatementId),
    (∀ p ∈ pairs, derivativesOf mir.derivatives p.2 = none) →
    derivPairsAux (stmtDerivatives pd pred fuel) pd pred attr var expr stmt
        mir dst pairs =
      ({ mir with statements := mir.statements ++
          pairDerivStmts pd pred attr var expr stmt pairs },
       dst ++ List.range' mir.statements.length
         (pairDerivStmts pd pred attr var expr stmt pairs).length) := by
  intro pairs
  induction pairs with
  | nil => intro mir dst h; simp [derivPairsAux, pairDerivStmts]
  | cons p rest ih =>
    intro mir dst h
    obtain ⟨u, dv⟩ := p
    by_cases hp : pred var stmt u
    · have hnone : derivativesOf mir.derivatives dv = none := h (u, dv) (by simp)
      have hinner : stmtDerivatives pd pred fuel
          { mir with statements :=
              mir.statements ++ [.assignment attr dv (pd expr u)] }
          (dst ++ [mir.statements.length]) mir.statements.length =
          ({ mir with statements :=
              mir.statements ++ [.assignment attr dv (pd expr u)] },
           dst ++ [mir.statements.length]) := by
        cases fuel with
        | zero => simp [stmtDerivatives]
        | succ n =>
          simp only [stmtDerivatives]
          rw [List.getElem?_concat_length]
          simp [hnone]
      simp only [derivPairsAux, hp, if_true, ite_true]
      rw [hinner]
      dsimp only
      rw [ih { mir with statements :=
            mir.statements ++ [.assignment attr dv (pd expr u)] }
          (dst ++ [mir.statements.length])
          (fun q hq => h q (by simp [hq]))]
      simp [pairDerivStmts, List.filterMap_cons, hp, List.range'_succ _ _ 1,
        List.length_append, List.append_assoc]
    · simp only [derivPairsAux, hp, if_false, ite_false]
      rw [ih _ _ (fun q hq => h q (by simp [hq]))]
      simp [pairDerivStmts, List.filterMap_cons, hp]

end AutoDiff

namespace AutoDiff

theorem stmtDerivatives_spec (pd : RealExpressionId → Unknown → RealExpressionId)
    (pred : VariableId → StatementId → Unknown → Bool) (n : Nat)
    (mir : MirState) (dst : List StatementId) (s : StatementId)
    (hfo : FirstOrder mir) :
    stmtDerivatives pd pred (n + 1) mir dst s =
      ({ mir with statements :=
          mir.statements ++ derivStmts pd pred mir s },
       dst ++ List.range' mir.statements.length
         (derivStmts pd pred mir s).length) := by
  simp only [stmtDerivatives]
  rcases hg : mir.statements[s]? with _ | stmtc
  · have hs : stmtAt mir s = .other := by
      simp [stmtAt, List.getD_eq_getElem?_getD, hg]
    simp [derivStmts, hs]
  · cases stmtc with
    | other =>
      have hs : stmtAt mir s = .other := by
        simp [stmtAt, List.getD_eq_getElem?_getD, hg]
      simp [derivStmts, hs]
    | assignment attr var expr =>
      have hsa : stmtAt mir s = .assignment attr var expr := by
        simp [stmtAt, List.getD_eq_getElem?_getD, hg]
      rcases hd : derivativesOf mir.derivatives var with _ | pairs
      · simp [derivStmts, hsa, hd]
      · have hpairs : ∀ p ∈ pairs, derivativesOf mir.derivatives p.2 = none := by
          obtain ⟨q, hq1, hq2⟩ := Option.map_eq_some'.mp hd
          intro p hp
          exact hfo q (List.mem_of_find?_eq_some hq1) p (hq2 ▸ hp)
        dsimp only
        rw [hd]
        dsimp only
        rw [derivPairsAux_spec pd pred n attr var expr s pairs mir dst hpairs]
        simp [derivStmts, hsa, hd, pairDerivStmts]

end AutoDiff

namespace AutoDiff

theorem revLoop_spec (pd : RealExpressionId → Unknown → RealExpressionId)
    (pred : VariableId → StatementId → Unknown → Bool) (n : Nat) :
    ∀ (l : List StatementId) (mir : MirState) (acc : List StatementId),
    FirstOrder mir →
    (∀ s ∈ l, s < mir.statements.length) →
    (∀ i ∈ acc, i < mir.statements.length) →
    (∃ ext, (revLoop pd pred (n+1) mir acc l).1.statements =
      mir.statements ++ ext) ∧
    (revLoop pd pred (n+1) mir acc l).1.derivatives = mir.derivatives ∧
    (∀ i ∈ (revLoop pd pred (n+1) mir acc l).2,
      i < (revLoop pd pred (n+1) mir acc l).1.statements.length) ∧
    stmtsAt (revLoop pd pred (n+1) mir acc l).1
        (revLoop pd pred (n+1) mir acc l).2 =
      stmtsAt mir acc ++
        l.flatMap (fun s => stmtAt mir s :: derivStmts pd pred mir s) := by
  intro l
  induction l with
  | nil =>
    intro mir acc hfo hl hacc
    exact ⟨⟨[], by simp [revLoop]⟩, by simp [revLoop],
      by simpa [revLoop] using hacc, by simp [revLoop, stmtsAt]⟩
  | cons s rest ih =>
    intro mir acc hfo hl hacc
    have hs : s < mir.statements.length := hl s (by simp)
    have hstep : revLoop pd pred (n+1) mir acc (s :: rest) =
        revLoop pd pred (n+1)
          { mir with statements :=
            mir.statements ++ derivStmts pd pred mir s }
          ((acc ++ [s]) ++ List.range' mir.statements.length
            (derivStmts pd pred mir s).length) rest := by
      simp only [revLoop]
      rw [stmtDerivatives_spec pd pred n mir (acc ++ [s]) s hfo]
    rw [hstep]
    have hpre1 : ∃ ext,
        ({ mir with statements :=
            mir.statements ++ derivStmts pd pred mir s } : MirState).statements =
          mir.statements ++ ext := ⟨derivStmts pd pred mir s, rfl⟩
    have hfo1 : FirstOrder
        { mir with statements := mir.statements ++ derivStmts pd pred mir s } :=
      hfo
    have hl1 : ∀ x ∈ rest, x <
        (mir.statements ++ derivStmts pd pred mir s).length := by
      intro x hx
      have := hl x (by simp [hx])
      simp only [List.length_append]
      exact Nat.lt_of_lt_of_le this (Nat.le_add_right _ _)
    have hacc1 : ∀ i ∈ (acc ++ [s]) ++ List.range' mir.statements.length
        (derivStmts pd pred mir s).length,
        i < (mir.statements ++ derivStmts pd pred mir s).length := by
      intro i hi
      simp only [List.mem_append] at hi
      rcases hi with (hi | hi) | hi
      · have := hacc i hi
        simp only [List.length_append]
        exact Nat.lt_of_lt_of_le this (Nat.le_add_right _ _)
      · simp only [List.mem_singleton] at hi
        subst hi
        simp only [List.length_append]
        exact Nat.lt_of_lt_of_le hs (Nat.le_add_right _ _)
      · rw [List.mem_range'_1] at hi
        simp only [List.length_append]
        exact hi.2
    obtain ⟨⟨ext1, hext1⟩, hder2, hbound2, hcont2⟩ := ih _ _ hfo1 hl1 hacc1
    refine ⟨⟨derivStmts pd pred mir s ++ ext1, by
        rw [hext1]; simp [List.append_assoc]⟩,
      by rw [hder2], hbound2, ?_⟩
    rw [hcont2]
    have hgcong : rest.flatMap
        (fun x => stmtAt
            { mir with statements := mir.statements ++ derivStmts pd pred mir s }
            x ::
          derivStmts pd pred
            { mir with statements := mir.statements ++ derivStmts pd pred mir s }
            x) =
        rest.flatMap (fun x => stmtAt mir x :: derivStmts pd pred mir x) := by
      apply flatMap_congrOn
      intro x hx
      have hxlen : x < mir.statements.length := hl x (by simp [hx])
      rw [stmtAt_extends mir _ x hpre1 hxlen,
        derivStmts_extends pd pred mir _ x hpre1 rfl hxlen]
    rw [hgcong]
    have hsplit : stmtsAt
        { mir with statements := mir.statements ++ derivStmts pd pred mir s }
        ((acc ++ [s]) ++ List.range' mir.statements.length
          (derivStmts pd pred mir s).length) =
        stmtsAt mir acc ++ [stmtAt mir s] ++ derivStmts pd pred mir s := by
      simp only [stmtsAt, List.map_append]
      congr 1
      congr 1
      · apply List.map_congr_left
        intro i hi
        exact stmtAt_extends mir _ i hpre1 (hacc i hi)
      · simp only [List.map_cons, List.map_nil]
        rw [stmtAt_extends mir _ s hpre1 hs]
      · have := stmtsAt_range' mir.derivatives (derivStmts pd pred mir s)
          mir.statements []
        simpa [stmtsAt] using this
    rw [hsplit]
    simp [List.flatMap_cons, List.append_assoc]

end AutoDiff

namespace AutoDiff

theorem stmtsAt_reverse (m : MirState) (ids : List StatementId) :
    stmtsAt m ids.reverse = (stmtsAt m ids).reverse := by
  simp [stmtsAt, List.map_reverse]

end AutoDiff

namespace AutoDiff

/-- C5 counterexample: for the single assignment `v0 := e3` with
registered pairs `[(u10, dv1), (u11, dv2)]`, the concrete pass produces
the final statement order `[2, 1, 0]`: the two derivative assignments
precede the original assignment and come in reverse registration order,
refuting the claim's order `[0, 1, 2]` (assignment first, then the
derivatives in registration order). -/
theorem C5_derivatives_order_counterexample :
    demandBlockDerivatives (fun e u => 100 * e + u) (fun _ _ _ => true) 9
      ⟨[.assignment 7 0 3], [(0, [(10, 1), (11, 2)])]⟩ [0] =
    (⟨[.assignment 7 0 3, .assignment 7 1 310, .assignment 7 2 311],
      [(0, [(10, 1), (11, 2)])]⟩, [2, 1, 0]) ∧
    ([2, 1, 0] : List Nat) ≠ [0, 1, 2] := by
  constructor <;> decide

end AutoDiff

namespace AutoDiff

/-- C5 (amended): for a basic block whose registered derivative map is
first order, each assignment `v := e` is followed in PUSH order by one
derivative assignment `dv_u := pd(e, u)` per registered pair passing the
predicate, in registration order; but after the block's final reversal
these derivative assignments appear contiguously immediately BEFORE the
assignment, in reverse registration order.  The right-hand side below is
the block's final statement contents. -/
theorem C5_derivatives_inserted_before_in_reverse_order (pd : RealExpressionId → Unknown → RealExpressionId)
    (pred : VariableId → StatementId → Unknown → Bool) (fuel : Nat)
    (mir : MirState) (old : List StatementId)
    (hfuel : 1 ≤ fuel) (hfo : FirstOrder mir)
    (hb : ∀ s ∈ old, s < mir.statements.length) :
    stmtsAt (demandBlockDerivatives pd pred fuel mir old).1
        (demandBlockDerivatives pd pred fuel mir old).2 =
      old.flatMap
        (fun s => (derivStmts pd pred mir s).reverse ++ [stmtAt mir s]) := by
  obtain ⟨n, rfl⟩ : ∃ n, fuel = n + 1 := ⟨fuel - 1, by omega⟩
  obtain ⟨hext, hder, hbound, hcont⟩ := revLoop_spec pd pred n old.reverse mir []
    hfo (fun s hs => hb s (List.mem_reverse.mp hs))
    (fun i hi => absurd hi (List.not_mem_nil i))
  unfold demandBlockDerivatives
  dsimp only
  rw [stmtsAt_reverse, hcont]
  simp only [stmtsAt, List.map_nil, List.nil_append]
  rw [reverse_flatMapOn]
  simp [List.reverse_cons]


/-- C5 witness: the amended theorem at the concrete block of the
counterexample, with the flatMap evaluated: the final contents are the
second derivative assignment, the first derivative assignment, then the
original assignment. -/
theorem C5_derivatives_inserted_before_in_reverse_order_witness :
    stmtsAt
      (demandBlockDerivatives (fun e u => 100 * e + u) (fun _ _ _ => true) 9
        ⟨[.assignment 7 0 3], [(0, [(10, 1), (11, 2)])]⟩ [0]).1
      (demandBlockDerivatives (fun e u => 100 * e + u) (fun _ _ _ => true) 9
        ⟨[.assignment 7 0 3], [(0, [(10, 1), (11, 2)])]⟩ [0]).2 =
      [.assignment 7 2 311, .assignment 7 1 310, .assignment 7 0 3] := by
  have h := C5_derivatives_inserted_before_in_reverse_order
    (fun e u => 100 * e + u) (fun _ _ _ => true) 9
    ⟨[.assignment 7 0 3], [(0, [(10, 1), (11, 2)])]⟩ [0]
    (by norm_num) (by unfold FirstOrder; decide) (by decide)
  rw [h]
  decide

end AutoDiff


namespace SimBack

theorem setVal_rows (db : CompilationDB) (m : TiMap) (k : MatrixEntry)
    (v : Value) (hm : ∀ p ∈ m, db.isGnd p.1.row = false)
    (hk : db.isGnd k.row = false) :
    ∀ p ∈ m.setVal k v, db.isGnd p.1.row = false := by
  intro p hp
  simp only [TiMap.setVal, List.mem_map] at hp
  obtain ⟨q, hq, hqe⟩ := hp
  by_cases h : q.1 = k
  · simp [h] at hqe
    subst hqe
    exact hk
  · simp [h] at hqe
    subst hqe
    exact hm q hq

theorem append_rows (db : CompilationDB) (m : TiMap) (k : MatrixEntry)
    (v : Value) (hm : ∀ p ∈ m, db.isGnd p.1.row = false)
    (hk : db.isGnd k.row = false) :
    ∀ p ∈ m ++ [(k, v)], db.isGnd p.1.row = false := by
  intro p hp
  rcases List.mem_append.mp hp with h | h
  · exact hm p h
  · simp at h
    subst h
    exact hk

theorem ensureEntry_rows (db : CompilationDB) (m : JacobianMatrix)
    (f : FuncCursor) (row col : NodeId) (val : Value) (neg reactive : Bool)
    (hm : jacRowsOk db m) (hrow : db.isGnd row = false) :
    jacRowsOk db (m.ensureEntry f row col val neg reactive).1 := by
  have hres : ∀ q ∈ m.resistive, db.isGnd q.1.row = false :=
    fun q hq => hm q (Or.inl hq)
  have hrea : ∀ q ∈ m.reactive, db.isGnd q.1.row = false :=
    fun q hq => hm q (Or.inr hq)
  cases reactive
  · rcases hget : TiMap.getVal m.resistive ⟨row, col⟩ with _ | old
    · cases neg <;>
      · simp only [JacobianMatrix.ensureEntry, hget, Bool.false_eq_true,
          ite_false, ite_true, if_neg, if_pos]
        simp only [jacRowsOk]
        intro p hp
        rcases hp with h | h
        · exact append_rows db m.resistive ⟨row, col⟩ _ hres hrow p h
        · exact hrea p h
    · simp only [JacobianMatrix.ensureEntry, hget, Bool.false_eq_true,
        ite_false, ite_true]
      intro p hp
      rcases hp with h | h
      · exact setVal_rows db m.resistive ⟨row, col⟩ _ hres hrow p h
      · exact hrea p h
  · rcases hget : TiMap.getVal m.reactive ⟨row, col⟩ with _ | old
    · cases neg <;>
      · simp only [JacobianMatrix.ensureEntry, hget, Bool.false_eq_true,
          ite_false, ite_true, if_neg, if_pos]
        simp only [jacRowsOk]
        intro p hp
        rcases hp with h | h
        · exact hres p h
        · exact append_rows db m.reactive ⟨row, col⟩ _ hrea hrow p h
    · simp only [JacobianMatrix.ensureEntry, hget, Bool.false_eq_true,
        ite_false, ite_true]
      intro p hp
      rcases hp with h | h
      · exact hres p h
      · exact setVal_rows db m.reactive ⟨row, col⟩ _ hrea hrow p h

end SimBack

namespace SimBack

theorem stampParams_rows (db : CompilationDB)
    (derivs : Value → ParamIdx → Option Value) (rhs : Value)
    (rowHi : NodeId) (rowLo : Option NodeId) (reactive : Bool) :
    ∀ (ps : List (ParamIdx × ParamKind)) (st : JacobianMatrix × FuncCursor),
    jacRowsOk db st.1 →
    jacRowsOk db (stampParams db derivs rhs rowHi rowLo reactive st ps).1 := by
  intro ps
  induction ps with
  | nil => intro st h; simpa [stampParams] using h
  | cons hd tl ih =>
    intro st h
    obtain ⟨param, kind⟩ := hd
    cases kind with
    | OtherParam => simpa [stampParams] using ih st h
    | Voltage colHi colLo =>
      rcases hd2 : derivs rhs param with _ | ddx
      · simpa [stampParams, hd2] using ih st h
      · by_cases hz : ddx = F_ZERO
        · simpa [stampParams, hd2, hz] using ih st h
        · simp only [stampParams, hd2, hz, ite_false, if_neg, not_false_iff]
          apply ih
          dsimp only
          rcases hhi : db.isGnd rowHi with _ | _ <;>
            simp only [hhi, Bool.false_eq_true, ite_false, ite_true] <;>
            rcases rowLo with _ | rl
          · -- hi non-ground, no low row
            rcases colLo with _ | cl
            · exact ensureEntry_rows db _ _ _ _ _ _ _ h hhi
            · exact ensureEntry_rows db _ _ _ _ _ _ _
                (ensureEntry_rows db _ _ _ _ _ _ _ h hhi) hhi
          · -- hi non-ground, low row present
            rcases hlo : db.isGnd rl with _ | _ <;>
              simp only [hlo, Bool.false_eq_true, ite_false, ite_true]
            · rcases colLo with _ | cl
              · exact ensureEntry_rows db _ _ _ _ _ _ _
                  (ensureEntry_rows db _ _ _ _ _ _ _ h hhi) hlo
              · exact ensureEntry_rows db _ _ _ _ _ _ _
                  (ensureEntry_rows db _ _ _ _ _ _ _
                    (ensureEntry_rows db _ _ _ _ _ _ _
                      (ensureEntry_rows db _ _ _ _ _ _ _ h hhi) hhi) hlo) hlo
            · rcases colLo with _ | cl
              · exact ensureEntry_rows db _ _ _ _ _ _ _ h hhi
              · exact ensureEntry_rows db _ _ _ _ _ _ _
                  (ensureEntry_rows db _ _ _ _ _ _ _ h hhi) hhi
          · -- hi ground, no low row
            exact h
          · -- hi ground, low row present
            rcases hlo : db.isGnd rl with _ | _ <;>
              simp only [hlo, Bool.false_eq_true, ite_false, ite_true]
            · rcases colLo with _ | cl
              · exact ensureEntry_rows db _ _ _ _ _ _ _ h hlo
              · exact ensureEntry_rows db _ _ _ _ _ _ _
                  (ensureEntry_rows db _ _ _ _ _ _ _ h hlo) hlo
            · exact h

end SimBack

namespace SimBack

end SimBack


namespace SimBack

/-- C6 counterexample: the assembly inserts an entry whose column node is
the ground node: with ground node 0, an implicit branch-current output on
node 1 and a voltage parameter probing node 0 to ground, `populate`
produces the resistive entry `((1, 0), 7)` although column node 0 is
ground — no column groundness check exists. -/
theorem C6_ground_column_counterexample :
    populate ⟨fun _ => none, fun n => n == 0⟩
      (fun v p => if v == 5 && p == 0 then some 7 else none)
      [(0, .Voltage 0 none)] (⟨[], []⟩, ⟨10, []⟩)
      [(.ImplicitBranchCurrent 1 none false, 5)] =
      some (⟨[(⟨1, 0⟩, 7)], []⟩, ⟨10, []⟩) ∧
    (⟨fun _ => none, fun n => n == 0⟩ : CompilationDB).isGnd 0 = true := by
  constructor <;> decide

/-- C6 (amended): after `populate`, every key present in either the
resistive or the reactive map has a non-ground ROW node (contributions
whose row-side endpoint is ground are skipped); column nodes are not
checked. -/
theorem C6_populate_rows_nonground (db : CompilationDB)
    (derivs : Value → ParamIdx → Option Value)
    (params : List (ParamIdx × ParamKind)) :
    ∀ (outs : List (PlaceKind × Value)) (st : JacobianMatrix × FuncCursor)
      (j : JacobianMatrix) (f : FuncCursor),
    jacRowsOk db st.1 →
    populate db derivs params st outs = some (j, f) →
    jacRowsOk db j := by
  intro outs
  induction outs with
  | nil =>
    intro st j f h hp
    simp [populate] at hp
    obtain rfl := hp
    exact h
  | cons hd tl ih =>
    intro st j f h hp
    obtain ⟨outKind, rhs⟩ := hd
    cases outKind with
    | BranchVoltage => simp [populate] at hp
    | ImplicitBranchVoltage => simp [populate] at hp
    | OtherPlace => exact ih st j f h (by simpa [populate] using hp)
    | ImplicitBranchCurrent hi lo reactive =>
      exact ih _ j f
        (stampParams_rows db derivs rhs hi lo reactive params st h)
        (by simpa [populate] using hp)
    | BranchCurrent branch reactive =>
      rcases hbi : db.branchInfo branch with _ | bk
      · simp [populate, hbi] at hp
      · cases bk with
        | NodeGnd node =>
          exact ih _ j f
            (stampParams_rows db derivs rhs node none reactive params st h)
            (by simpa [populate, hbi] using hp)
        | Nodes hi lo =>
          exact ih _ j f
            (stampParams_rows db derivs rhs hi (some lo) reactive params st h)
            (by simpa [populate, hbi] using hp)
        | PortFlow p => simp [populate, hbi] at hp


/-- C6 witness: the amended theorem at the concrete run of the
counterexample setting with a non-ground column (node 2): every key of
the produced matrix has a non-ground row. -/
theorem C6_populate_rows_nonground_witness :
    jacRowsOk ⟨fun _ => none, fun n => n == 0⟩ ⟨[(⟨1, 2⟩, 7)], []⟩ :=
  C6_populate_rows_nonground ⟨fun _ => none, fun n => n == 0⟩
    (fun v p => if v == 5 && p == 0 then some 7 else none)
    [(0, .Voltage 2 none)] [(.ImplicitBranchCurrent 1 none false, 5)]
    (⟨[], []⟩, ⟨10, []⟩) ⟨[(⟨1, 2⟩, 7)], []⟩ ⟨10, []⟩
    (by rintro p (h | h) <;> simp at h) (by decide)

/-- C7: for a branch-current output over non-ground nodes `(h, l)` and a
voltage parameter with columns `(ch, some cl)` whose registered
derivative is `d ≠ 0`, `populate` deposits, into the map selected by the
reactive flag, the four entries `(h,ch) = +d`, `(h,cl) = -d`,
`(l,ch) = -d`, `(l,cl) = +d` in that insertion order, materialising the
two negative contributions as `fneg` instructions; and `ensure_entry` on
an occupied key combines the new contribution with an `fadd`/`fsub`
instruction whose LEFT operand is the existing value. -/
theorem C7_branch_current_stamp_signs :
    (∀ (db : CompilationDB) (derivs : Value → ParamIdx → Option Value)
       (branch : BranchId) (rhs : Value) (h l ch cl : NodeId) (d : Value)
       (reactive : Bool) (f : FuncCursor),
      db.branchInfo branch = some (.Nodes h l) →
      db.isGnd h = false → db.isGnd l = false →
      derivs rhs 0 = some d → d ≠ F_ZERO → h ≠ l → ch ≠ cl →
      populate db derivs [(0, .Voltage ch (some cl))] (⟨[], []⟩, f)
        [(.BranchCurrent branch reactive, rhs)] =
        some
          ((if reactive then
              ⟨[], [(⟨h, ch⟩, d), (⟨h, cl⟩, f.nextValue),
                    (⟨l, ch⟩, f.nextValue + 1), (⟨l, cl⟩, d)]⟩
            else
              ⟨[(⟨h, ch⟩, d), (⟨h, cl⟩, f.nextValue),
                (⟨l, ch⟩, f.nextValue + 1), (⟨l, cl⟩, d)], []⟩),
           ⟨f.nextValue + 2,
            f.insts ++ [(f.nextValue, .fneg d), (f.nextValue + 1, .fneg d)]⟩)) ∧
    (∀ (m : JacobianMatrix) (f : FuncCursor) (row col : NodeId)
       (val old : Value) (neg reactive : Bool),
      ((if reactive then m.reactive else m.resistive) : TiMap).getVal
          ⟨row, col⟩ = some old →
      m.ensureEntry f row col val neg reactive =
        ((if reactive then
            { m with reactive := m.reactive.setVal ⟨row, col⟩ f.nextValue }
          else
            { m with resistive := m.resistive.setVal ⟨row, col⟩ f.nextValue }),
         ⟨f.nextValue + 1,
          f.insts ++
            [(f.nextValue, if neg then .fsub old val else .fadd old val)]⟩)) := by
  constructor
  · intro db derivs branch rhs h l ch cl d reactive f hbi hgh hgl hd hz hhl hcc
    have e1 : ((⟨h, ch⟩ : MatrixEntry) == ⟨h, cl⟩) = false := by
      rw [beq_eq_false_iff_ne]; simp [MatrixEntry.mk.injEq, hcc]
    have e2 : ((⟨h, ch⟩ : MatrixEntry) == ⟨l, ch⟩) = false := by
      rw [beq_eq_false_iff_ne]; simp [MatrixEntry.mk.injEq, hhl]
    have e3 : ((⟨h, cl⟩ : MatrixEntry) == ⟨l, ch⟩) = false := by
      rw [beq_eq_false_iff_ne]; simp [MatrixEntry.mk.injEq, hhl]
    have e4 : ((⟨h, ch⟩ : MatrixEntry) == ⟨l, cl⟩) = false := by
      rw [beq_eq_false_iff_ne]; simp [MatrixEntry.mk.injEq, hhl]
    have e5 : ((⟨h, cl⟩ : MatrixEntry) == ⟨l, cl⟩) = false := by
      rw [beq_eq_false_iff_ne]; simp [MatrixEntry.mk.injEq, hhl]
    have e6 : ((⟨l, ch⟩ : MatrixEntry) == ⟨l, cl⟩) = false := by
      rw [beq_eq_false_iff_ne]; simp [MatrixEntry.mk.injEq, hcc]
    cases reactive <;>
      simp [populate, stampParams, JacobianMatrix.ensureEntry, TiMap.getVal,
        List.find?, FuncCursor.ins, hbi, hgh, hgl, hd, hz,
        e1, e2, e3, e4, e5, e6]
  · intro m f row col val old neg reactive hget
    cases reactive <;> cases neg <;> simp only [ite_true, ite_false,
      Bool.false_eq_true, if_true, if_false] at hget <;>
      simp [JacobianMatrix.ensureEntry, hget, FuncCursor.ins]


/-- C7 witness: the stamp theorem at a concrete non-ground setting
(nodes 1, 2, columns 3, 4, derivative 7), and the occupied-key
accumulation at a concrete map. -/
theorem C7_branch_current_stamp_signs_witness :
    populate ⟨fun _ => some (.Nodes 1 2), fun _ => false⟩
      (fun _ _ => some 7) [(0, .Voltage 3 (some 4))] (⟨[], []⟩, ⟨10, []⟩)
      [(.BranchCurrent 0 false, 5)] =
      some (⟨[(⟨1, 3⟩, 7), (⟨1, 4⟩, 10), (⟨2, 3⟩, 11), (⟨2, 4⟩, 7)], []⟩,
        ⟨12, [(10, .fneg 7), (11, .fneg 7)]⟩) ∧
    JacobianMatrix.ensureEntry ⟨[(⟨1, 2⟩, 5)], []⟩ ⟨10, []⟩ 1 2 3 false
        false =
      (⟨[(⟨1, 2⟩, 10)], []⟩, ⟨11, [(10, .fadd 5 3)]⟩) := by
  constructor
  · have h := C7_branch_current_stamp_signs.1
      ⟨fun _ => some (.Nodes 1 2), fun _ => false⟩ (fun _ _ => some 7)
      0 5 1 2 3 4 7 false ⟨10, []⟩ rfl rfl rfl rfl (by decide) (by decide)
      (by decide)
    simpa using h
  · have h := C7_branch_current_stamp_signs.2 ⟨[(⟨1, 2⟩, 5)], []⟩ ⟨10, []⟩
      1 2 3 5 false false (by decide)
    simpa [TiMap.setVal] using h

end SimBack
